import Mathlib

/-!
Verification of the in-process lock manager in `lib/lock_manager.py`.

The development is a shallow embedding of the module:

* lock levels are the Python integer constants (`LOCK_NONE` .. `LOCK_EXCLUSIVE`);
* the `SharedExclusiveLock` state is its pair of mutable containers,
  `_lock_holders` (a dict, modelled as an association list with unique keys)
  and `_blocked_clients` (a deque, modelled as a list with head = front);
* `SharedExclusiveLock.lock` / `unlock` / the `_wakeup_blocked` scheduler and
  the timeout branch of `_wait` are translated statement by statement;
* `DefaultLockManager` is the filename-indexed map of `SharedExclusiveLock`s
  together with the native-lock callback protocol of `DefaultLockManager.lock`.

A call of `lock` that cannot be served immediately blocks the calling thread
inside `_wait`; such a call is represented by the `LockOutcome.blocked`
result, which records the state after the waiter has been enqueued.  All
later state changes on behalf of a blocked client happen inside
`_wakeup_blocked` (run by `unlock`) or inside the timeout branch of `_wait`,
so a sequence of external calls is faithfully replayed by `runEvents` below.

The `check_invariant` method is a chain of `assert` statements; it is
modelled as the boolean predicate `SharedExclusiveLock.check_invariant`.
The `_lock_holder_traceback` dictionary and the condition-variable plumbing
of `BlockedClientInfo` are diagnostics and signalling machinery with no
influence on the lock state and are not modelled; a waiter still sitting in
`_blocked_clients` has necessarily not been signalled (a signalled waiter is
popped by `_wakeup_blocked` in the same step), which is how the timeout
branch is able to treat queue membership as "not yet got the lock".
-/

/-! ### Lock levels -/

@[simp] def LOCK_NONE : Int := 0
@[simp] def LOCK_SHARED : Int := 1
@[simp] def LOCK_RESERVED : Int := 2
@[simp] def LOCK_PENDING : Int := 3
@[simp] def LOCK_EXCLUSIVE : Int := 4

/-- `_ascend_level`: loop over the tuple `(1, 2, 4)`, `break` as soon as
`level > new_level`, and collect each remaining `level > old_level`. -/
def ascend_level_from (old_level new_level : Int) : List Int → List Int
  | [] => []
  | l :: ls =>
    if new_level < l then []
    else if old_level < l then l :: ascend_level_from old_level new_level ls
    else ascend_level_from old_level new_level ls

def ascend_level (old_level new_level : Int) : List Int :=
  ascend_level_from old_level new_level [LOCK_SHARED, LOCK_RESERVED, LOCK_EXCLUSIVE]

/-! ### Holders dictionary (`_lock_holders`)

A Python dict keyed by client.  Modelled as an association list whose keys
are unique for every state that arises from a real dict; `holders_set`
replaces the entry in place (or appends a fresh key, as dict assignment
does), `holders_del` removes the key. -/

def holders_get : List (Nat × Int) → Nat → Int
  | [], _ => LOCK_NONE
  | p :: t, client => if p.1 = client then p.2 else holders_get t client

def holders_set : List (Nat × Int) → Nat → Int → List (Nat × Int)
  | [], client, level => [(client, level)]
  | p :: t, client, level =>
    if p.1 = client then (client, level) :: t else p :: holders_set t client level

def holders_del : List (Nat × Int) → Nat → List (Nat × Int)
  | [], _ => []
  | p :: t, client => if p.1 = client then holders_del t client else p :: holders_del t client

/-- `[v for (k, v) in self._lock_holders.items() if k != client]`. -/
def other_levels : List (Nat × Int) → Nat → List Int
  | [], _ => []
  | p :: t, client =>
    if p.1 = client then other_levels t client else p.2 :: other_levels t client

/-- `max(lock_levels) if lock_levels else LOCK_NONE`. -/
def max_of_levels : List Int → Int
  | [] => LOCK_NONE
  | l :: ls => ls.foldl max l

/-! ### The per-file lock -/

structure BlockedClientInfo where
  client : Nat
  level : Int
deriving DecidableEq

structure SharedExclusiveLock where
  lock_holders : List (Nat × Int)
  blocked_clients : List BlockedClientInfo
deriving DecidableEq

def SharedExclusiveLock.init : SharedExclusiveLock := ⟨[], []⟩

def SharedExclusiveLock.is_idle (s : SharedExclusiveLock) : Bool :=
  s.lock_holders.isEmpty

/-- The six `assert`s of `SharedExclusiveLock.check_invariant`, in source
order, as one boolean conjunction. -/
def SharedExclusiveLock.check_invariant (s : SharedExclusiveLock) : Bool :=
  ((s.lock_holders.map Prod.snd).all fun l =>
      (l == LOCK_NONE) || (l == LOCK_SHARED) || (l == LOCK_RESERVED) ||
      (l == LOCK_PENDING) || (l == LOCK_EXCLUSIVE))
  && (s.blocked_clients.isEmpty || !s.lock_holders.isEmpty)
  && (!(match s.blocked_clients with
        | [] => false
        | w :: _ => w.level == LOCK_SHARED)
      || decide (LOCK_PENDING ≤ max_of_levels (s.lock_holders.map Prod.snd)))
  && decide ((s.lock_holders.filter fun p => LOCK_SHARED < p.2).length ≤ 1)
  && (!((s.lock_holders.map Prod.snd).contains LOCK_EXCLUSIVE)
      || s.lock_holders.length == 1)
  && (!((s.lock_holders.map Prod.snd).contains LOCK_PENDING)
      || (s.lock_holders.map Prod.snd).contains LOCK_SHARED)

/-- Result of a `SharedExclusiveLock.lock` call.  `granted` is a synchronous
return of the previous level, `blocked` is a call that has enqueued a waiter
and is now waiting inside `_wait` (the state carries the enqueued waiter),
`deadlock` is a raised `DeadlockError`, `invalid_level` the `ValueError` for
a bad level, and `assertion_failed` the failed `assert` in
`_acquire_exclusive`; the raising paths leave the state untouched. -/
inductive LockOutcome where
  | granted (old_level : Int) (s : SharedExclusiveLock)
  | blocked (old_level : Int) (s : SharedExclusiveLock)
  | deadlock (s : SharedExclusiveLock)
  | invalid_level (s : SharedExclusiveLock)
  | assertion_failed (s : SharedExclusiveLock)
deriving DecidableEq

def LockOutcome.state : LockOutcome → SharedExclusiveLock
  | .granted _ s => s
  | .blocked _ s => s
  | .deadlock s => s
  | .invalid_level s => s
  | .assertion_failed s => s

/-- The enqueue half of `_wait`: `appendleft` when `enqueue_front` else
`append`. -/
def SharedExclusiveLock.enqueue_waiter (s : SharedExclusiveLock) (client : Nat)
    (level : Int) (front : Bool) : SharedExclusiveLock :=
  { s with blocked_clients :=
      if front then ⟨client, level⟩ :: s.blocked_clients
      else s.blocked_clients ++ [⟨client, level⟩] }

def SharedExclusiveLock.acquire_shared (s : SharedExclusiveLock) (client : Nat)
    (old_level : Int) : LockOutcome :=
  if max_of_levels (other_levels s.lock_holders client) < LOCK_PENDING
      ∧ s.blocked_clients = [] then
    .granted old_level { s with lock_holders := holders_set s.lock_holders client LOCK_SHARED }
  else
    .blocked old_level (s.enqueue_waiter client LOCK_SHARED false)

def SharedExclusiveLock.acquire_reserved (s : SharedExclusiveLock) (client : Nat)
    (old_level : Int) : LockOutcome :=
  if max_of_levels (other_levels s.lock_holders client) < LOCK_RESERVED
      ∧ s.blocked_clients = [] then
    .granted old_level { s with lock_holders := holders_set s.lock_holders client LOCK_RESERVED }
  else if old_level ≠ LOCK_NONE then
    .deadlock s
  else
    .blocked old_level (s.enqueue_waiter client LOCK_RESERVED false)

def SharedExclusiveLock.acquire_exclusive (s : SharedExclusiveLock) (client : Nat)
    (old_level : Int) : LockOutcome :=
  if max_of_levels (other_levels s.lock_holders client) = LOCK_NONE then
    .granted old_level { s with lock_holders := holders_set s.lock_holders client LOCK_EXCLUSIVE }
  else if max_of_levels (other_levels s.lock_holders client) = LOCK_SHARED then
    .blocked old_level
      (SharedExclusiveLock.enqueue_waiter
        { s with lock_holders := holders_set s.lock_holders client LOCK_PENDING }
        client LOCK_EXCLUSIVE true)
  else if old_level ≠ LOCK_NONE ∧ old_level ≠ LOCK_SHARED then
    .assertion_failed s
  else if old_level = LOCK_NONE then
    .blocked old_level (s.enqueue_waiter client LOCK_EXCLUSIVE false)
  else
    .deadlock s

/-- `SharedExclusiveLock.lock`.  `if level > old_level` guards the dispatch;
otherwise the held level is returned unchanged. -/
def SharedExclusiveLock.lock (s : SharedExclusiveLock) (level : Int) (client : Nat) :
    LockOutcome :=
  if holders_get s.lock_holders client < level then
    if level = LOCK_SHARED then
      s.acquire_shared client (holders_get s.lock_holders client)
    else if level = LOCK_RESERVED then
      s.acquire_reserved client (holders_get s.lock_holders client)
    else if level = LOCK_EXCLUSIVE then
      s.acquire_exclusive client (holders_get s.lock_holders client)
    else .invalid_level s
  else .granted (holders_get s.lock_holders client) s

/-- `_wakeup_blocked`: walk the queue from the head; grant and pop while a
rule matches, push the head back and stop otherwise.  `none` is the
`Exception` raised for a waiter level outside `{SHARED, RESERVED,
EXCLUSIVE}` (no `_wait` call ever enqueues such a waiter). -/
def wakeup_blocked : List (Nat × Int) → List BlockedClientInfo →
    Option (List (Nat × Int) × List BlockedClientInfo)
  | holders, [] => some (holders, [])
  | holders, w :: rest =>
    if w.level = LOCK_SHARED then
      if max_of_levels (other_levels holders w.client) < LOCK_PENDING then
        wakeup_blocked (holders_set holders w.client LOCK_SHARED) rest
      else some (holders, w :: rest)
    else if w.level = LOCK_RESERVED then
      if max_of_levels (other_levels holders w.client) < LOCK_RESERVED then
        wakeup_blocked (holders_set holders w.client LOCK_RESERVED) rest
      else some (holders, w :: rest)
    else if w.level = LOCK_EXCLUSIVE then
      if max_of_levels (other_levels holders w.client) = LOCK_NONE then
        wakeup_blocked (holders_set holders w.client LOCK_EXCLUSIVE) rest
      else if max_of_levels (other_levels holders w.client) = LOCK_SHARED then
        some (holders_set holders w.client LOCK_PENDING, w :: rest)
      else some (holders, w :: rest)
    else none

/-- `SharedExclusiveLock.unlock`: downgrade-only, then run the scheduler. -/
def SharedExclusiveLock.unlock (s : SharedExclusiveLock) (level : Int) (client : Nat) :
    Option SharedExclusiveLock :=
  if level < holders_get s.lock_holders client then
    match wakeup_blocked
        (if level = LOCK_NONE then holders_del s.lock_holders client
         else holders_set s.lock_holders client level)
        s.blocked_clients with
    | some r => some ⟨r.1, r.2⟩
    | none => none
  else some s

/-- The timeout branch of `_wait` (lines 332-339): the unsignalled waiter is
spliced out of `_blocked_clients` by a linear scan and `_LockTimeoutError`
is raised; the holders map is left as it is and `_wakeup_blocked` is not
called. -/
def remove_waiter : List BlockedClientInfo → Nat → List BlockedClientInfo
  | [], _ => []
  | w :: rest, client => if w.client = client then rest else w :: remove_waiter rest client

def SharedExclusiveLock.timeout_splice (s : SharedExclusiveLock) (client : Nat) :
    SharedExclusiveLock :=
  { s with blocked_clients := remove_waiter s.blocked_clients client }

/-! ### External call sequences on one file

`lockCall` runs `lock` up to its synchronous return or up to the point where
the calling thread blocks; `unlockCall` is an `unlock` call; `timeoutOf c`
is the timeout branch of `_wait` resuming inside the blocked `lock` call of
client `c`.  `lock_result` on `DefaultLockManager` is `pass` and needs no
event. -/

inductive LockEvent where
  | lockCall (level : Int) (client : Nat)
  | unlockCall (level : Int) (client : Nat)
  | timeoutOf (client : Nat)
deriving DecidableEq

def stepEvent (s : SharedExclusiveLock) : LockEvent → Option SharedExclusiveLock
  | .lockCall level client => some (s.lock level client).state
  | .unlockCall level client => s.unlock level client
  | .timeoutOf client => some (s.timeout_splice client)

def runEvents : SharedExclusiveLock → List LockEvent → Option SharedExclusiveLock
  | s, [] => some s
  | s, e :: es => (stepEvent s e).bind fun s' => runEvents s' es

/-! ### The manager (`DefaultLockManager`)

`_filelocks` is a dict filename to `SharedExclusiveLock`; a filelock is
created on first use and popped again whenever it is idle at the end of a
top-level operation.  The native locking function is a host callback that
either returns (success) or raises; it is modelled as a function into
`Except E Unit`. -/

def filelocks_get : List (String × SharedExclusiveLock) → String →
    Option SharedExclusiveLock
  | [], _ => none
  | p :: t, filename => if p.1 = filename then some p.2 else filelocks_get t filename

def filelocks_set : List (String × SharedExclusiveLock) → String →
    SharedExclusiveLock → List (String × SharedExclusiveLock)
  | [], filename, fl => [(filename, fl)]
  | p :: t, filename, fl =>
    if p.1 = filename then (filename, fl) :: t else p :: filelocks_set t filename fl

/-- `self._filelocks.pop(filename, None)`. -/
def filelocks_del : List (String × SharedExclusiveLock) → String →
    List (String × SharedExclusiveLock)
  | [], _ => []
  | p :: t, filename =>
    if p.1 = filename then filelocks_del t filename else p :: filelocks_del t filename

structure DefaultLockManager where
  filelocks : List (String × SharedExclusiveLock)
deriving DecidableEq

/-- `self._filelocks.get(filename)` followed by creation of a fresh
`SharedExclusiveLock` when the filename is not registered. -/
def DefaultLockManager.get_filelock (m : DefaultLockManager) (filename : String) :
    SharedExclusiveLock :=
  (filelocks_get m.filelocks filename).getD SharedExclusiveLock.init

def set_filelock (m : DefaultLockManager) (filename : String)
    (fl : SharedExclusiveLock) : DefaultLockManager :=
  ⟨filelocks_set m.filelocks filename fl⟩

def drop_filelock (m : DefaultLockManager) (filename : String) : DefaultLockManager :=
  ⟨filelocks_del m.filelocks filename⟩

/-- The `finally: if filelock.is_idle(): self._filelocks.pop(filename, None)`
pattern: keep the updated filelock in the map unless it has become idle. -/
def drop_if_idle (m : DefaultLockManager) (filename : String)
    (fl : SharedExclusiveLock) : DefaultLockManager :=
  if fl.is_idle then drop_filelock m filename else set_filelock m filename fl

def DefaultLockManager.is_idle (m : DefaultLockManager) : Bool :=
  m.filelocks.isEmpty

def DefaultLockManager.unlock (m : DefaultLockManager) (filename : String)
    (level : Int) (client : Nat) : Option DefaultLockManager :=
  match (m.get_filelock filename).unlock level client with
  | some fl' => some (drop_if_idle m filename fl')
  | none => none

/-- The `for l in levels: lockfunc(l)` loop of `DefaultLockManager.lock`,
recording the levels that were actually passed to `lockfunc`; the first
raising call short-circuits the loop. -/
def run_lockfunc {E : Type} (lockfunc : Int → Except E Unit) :
    List Int → List Int × Except E Unit
  | [] => ([], Except.ok ())
  | l :: ls =>
    match lockfunc l with
    | Except.ok _ =>
      ((run_lockfunc lockfunc ls).1.cons l, (run_lockfunc lockfunc ls).2)
    | Except.error e => ([l], Except.error e)

/-- Result of a `DefaultLockManager.lock` call.  `blockedCall` is a call
whose thread is waiting inside `FileLock.lock` (the waiter is stored in the
map; the idle check of the `finally` block has not run yet because the call
has not returned).  `lockfuncError` is the re-raised native-lock exception
after rollback; `DefaultLockManager.lock_result` is `pass` and changes no
state. -/
inductive ManagerLockResult (E : Type) where
  | ok (m : DefaultLockManager)
  | blockedCall (m : DefaultLockManager) (old_level : Int)
  | deadlockError (m : DefaultLockManager)
  | invalidLevelError (m : DefaultLockManager)
  | assertionError (m : DefaultLockManager)
  | lockfuncError (m : DefaultLockManager) (e : E)

def DefaultLockManager.lock {E : Type} (m : DefaultLockManager)
    (lockfunc : Int → Except E Unit) (filename : String) (level : Int)
    (client : Nat) : Option (ManagerLockResult E) :=
  match (m.get_filelock filename).lock level client with
  | .granted old_level fl' =>
    match run_lockfunc lockfunc (ascend_level old_level level) with
    | (_, Except.ok _) => some (.ok (drop_if_idle m filename fl'))
    | (_, Except.error e) =>
      match (drop_if_idle m filename fl').unlock filename old_level client with
      | some m2 => some (.lockfuncError m2 e)
      | none => none
  | .blocked old_level fl' => some (.blockedCall (set_filelock m filename fl') old_level)
  | .deadlock fl' => some (.deadlockError (drop_if_idle m filename fl'))
  | .invalid_level fl' => some (.invalidLevelError (drop_if_idle m filename fl'))
  | .assertion_failed fl' => some (.assertionError (drop_if_idle m filename fl'))

/-! ### Supporting lemmas -/

theorem le_foldl_max (ls : List Int) : ∀ a b : Int, b ≤ a → b ≤ ls.foldl max a := by
  induction ls with
  | nil => intro a b h; simpa using h
  | cons l t ih =>
    intro a b h
    exact ih (max a l) b (le_trans h (le_max_left a l))

theorem mem_le_foldl_max (ls : List Int) : ∀ a b : Int, b ∈ ls → b ≤ ls.foldl max a := by
  induction ls with
  | nil => intro a b h; cases h
  | cons l t ih =>
    intro a b h
    rcases List.mem_cons.mp h with h | h
    · subst h; exact le_foldl_max t (max a b) b (le_max_right a b)
    · exact ih (max a l) b h

theorem mem_le_max_of_levels {ls : List Int} {b : Int} (h : b ∈ ls) :
    b ≤ max_of_levels ls := by
  cases ls with
  | nil => cases h
  | cons l t =>
    rcases List.mem_cons.mp h with h | h
    · subst h; exact le_foldl_max t b b le_rfl
    · exact mem_le_foldl_max t l b h

theorem mem_other_levels {h : List (Nat × Int)} {o c : Nat} (hne : o ≠ c)
    (hpos : holders_get h o ≠ LOCK_NONE) :
    holders_get h o ∈ other_levels h c := by
  induction h with
  | nil => simp [holders_get] at hpos
  | cons p t ih =>
    by_cases hpo : p.1 = o
    · have hpc : ¬ p.1 = c := by rw [hpo]; exact hne
      simp only [holders_get, other_levels, if_pos hpo, if_neg hpc]
      exact List.mem_cons_self _ _
    · simp only [holders_get, if_neg hpo] at hpos ⊢
      by_cases hpc : p.1 = c
      · simpa only [other_levels, if_pos hpc] using ih hpos
      · simp only [other_levels, if_neg hpc]
        exact List.mem_cons_of_mem _ (ih hpos)

theorem holders_get_absent {h : List (Nat × Int)} {c : Nat}
    (habs : ∀ p ∈ h, p.1 ≠ c) : holders_get h c = LOCK_NONE := by
  induction h with
  | nil => rfl
  | cons p t ih =>
    have hpc : ¬ p.1 = c := habs p (List.mem_cons_self _ _)
    simp only [holders_get, if_neg hpc]
    exact ih fun q hq => habs q (List.mem_cons_of_mem _ hq)

theorem holders_get_set_self (h : List (Nat × Int)) (c : Nat) (l : Int) :
    holders_get (holders_set h c l) c = l := by
  induction h with
  | nil => simp [holders_set, holders_get]
  | cons p t ih =>
    by_cases hpc : p.1 = c
    · simp [holders_set, if_pos hpc, holders_get]
    · simp [holders_set, if_neg hpc, holders_get, hpc, ih]

theorem holders_get_set_ne {x c : Nat} (hx : x ≠ c) (h : List (Nat × Int)) (l : Int) :
    holders_get (holders_set h x l) c = holders_get h c := by
  induction h with
  | nil => simp [holders_set, holders_get, hx]
  | cons p t ih =>
    by_cases hpx : p.1 = x
    · have hpc : ¬ p.1 = c := by rw [hpx]; exact hx
      simp [holders_set, if_pos hpx, holders_get, hx, hpc]
    · by_cases hpc : p.1 = c
      · have hcx : ¬ c = x := fun hh => hx hh.symm
        simp [holders_set, holders_get, hpc, hcx]
      · simp [holders_set, holders_get, hpc, hpx, ih]

theorem holders_set_mem_ne {x c : Nat} (hx : x ≠ c) {h : List (Nat × Int)}
    (habs : ∀ p ∈ h, p.1 ≠ c) :
    ∀ p ∈ holders_set h x l, p.1 ≠ c := by
  induction h with
  | nil =>
    intro p hp
    simp only [holders_set, List.mem_singleton] at hp
    subst hp; exact hx
  | cons q t ih =>
    intro p hp
    by_cases hqx : q.1 = x
    · simp only [holders_set, if_pos hqx, List.mem_cons] at hp
      rcases hp with hp | hp
      · subst hp; exact hx
      · exact habs p (List.mem_cons_of_mem _ hp)
    · simp only [holders_set, if_neg hqx, List.mem_cons] at hp
      rcases hp with hp | hp
      · subst hp; exact habs p (List.mem_cons_self _ _)
      · exact ih (fun q hq => habs q (List.mem_cons_of_mem _ hq)) p hp

theorem holders_set_ne_nil (h : List (Nat × Int)) (c : Nat) (l : Int) :
    holders_set h c l ≠ [] := by
  cases h with
  | nil => simp [holders_set]
  | cons p t =>
    by_cases hpc : p.1 = c
    · simp [holders_set, if_pos hpc]
    · simp [holders_set, if_neg hpc]

theorem holders_del_mem (h : List (Nat × Int)) (c : Nat) :
    ∀ p ∈ holders_del h c, p.1 ≠ c := by
  induction h with
  | nil => intro p hp; cases hp
  | cons q t ih =>
    intro p hp
    by_cases hqc : q.1 = c
    · exact ih p (by simpa only [holders_del, if_pos hqc] using hp)
    · simp only [holders_del, if_neg hqc, List.mem_cons] at hp
      rcases hp with hp | hp
      · subst hp; exact hqc
      · exact ih p hp

/-- Every waiter enqueued by `_wait` asks for `SHARED`, `RESERVED` or
`EXCLUSIVE`; on such queues the scheduler never hits its `raise`. -/
theorem wakeup_blocked_isSome :
    ∀ (b : List BlockedClientInfo) (h : List (Nat × Int)),
      (∀ w ∈ b, w.level = LOCK_SHARED ∨ w.level = LOCK_RESERVED ∨ w.level = LOCK_EXCLUSIVE) →
      (wakeup_blocked h b).isSome := by
  intro b
  induction b with
  | nil => intro h _; simp [wakeup_blocked]
  | cons w rest ih =>
    intro h hv
    have htail : ∀ x ∈ rest, x.level = LOCK_SHARED ∨ x.level = LOCK_RESERVED ∨
        x.level = LOCK_EXCLUSIVE :=
      fun x hx => hv x (List.mem_cons_of_mem _ hx)
    rcases hv w (List.mem_cons_self _ _) with hw | hw | hw
    · by_cases hm : max_of_levels (other_levels h w.client) < (3 : Int)
      · simpa [wakeup_blocked, hw, hm] using ih _ htail
      · simp [wakeup_blocked, hw, hm]
    · by_cases hm : max_of_levels (other_levels h w.client) < (2 : Int)
      · simpa [wakeup_blocked, hw, hm] using ih _ htail
      · simp [wakeup_blocked, hw, hm]
    · by_cases hm0 : max_of_levels (other_levels h w.client) = (0 : Int)
      · simpa [wakeup_blocked, hw, hm0] using ih _ htail
      · by_cases hm1 : max_of_levels (other_levels h w.client) = (1 : Int)
        · simp [wakeup_blocked, hw, hm0, hm1]
        · simp [wakeup_blocked, hw, hm0, hm1]

/-- The scheduler changes the holders map only at the keys of queued
clients: a client with no waiter keeps its level, and stays absent if it was
absent. -/
theorem wakeup_blocked_frame {c : Nat} :
    ∀ (b : List BlockedClientInfo) (h h' : List (Nat × Int)) (b' : List BlockedClientInfo),
      (∀ w ∈ b, w.client ≠ c) → wakeup_blocked h b = some (h', b') →
      holders_get h' c = holders_get h c ∧
        ((∀ p ∈ h, p.1 ≠ c) → ∀ p ∈ h', p.1 ≠ c) := by
  intro b
  induction b with
  | nil =>
    intro h h' b' _ heq
    simp only [wakeup_blocked, Option.some.injEq, Prod.mk.injEq] at heq
    rw [← heq.1]
    exact ⟨rfl, fun ha => ha⟩
  | cons w rest ih =>
    intro h h' b' hnc heq
    have hwc : w.client ≠ c := hnc w (List.mem_cons_self _ _)
    have htail : ∀ x ∈ rest, x.client ≠ c := fun x hx => hnc x (List.mem_cons_of_mem _ hx)
    simp only [wakeup_blocked] at heq
    split_ifs at heq with h1 h2 h3 h4 h5 h6 h7
    all_goals first
      | (rcases ih _ _ _ htail heq with ⟨hg, hm⟩
         exact ⟨hg.trans (holders_get_set_ne hwc h _),
           fun ha => hm (holders_set_mem_ne hwc ha)⟩)
      | (simp only [Option.some.injEq, Prod.mk.injEq] at heq
         rw [← heq.1]
         exact ⟨rfl, fun ha => ha⟩)
      | (simp only [Option.some.injEq, Prod.mk.injEq] at heq
         rw [← heq.1]
         exact ⟨holders_get_set_ne hwc h _, fun ha => holders_set_mem_ne hwc ha⟩)
      | cases heq

theorem filelocks_get_set_self (l : List (String × SharedExclusiveLock))
    (f : String) (fl : SharedExclusiveLock) :
    filelocks_get (filelocks_set l f fl) f = some fl := by
  induction l with
  | nil => simp [filelocks_set, filelocks_get]
  | cons p t ih =>
    by_cases hpf : p.1 = f
    · simp [filelocks_set, if_pos hpf, filelocks_get]
    · simp [filelocks_set, if_neg hpf, filelocks_get, hpf, ih]

theorem filelocks_del_set (l : List (String × SharedExclusiveLock))
    (f : String) (fl : SharedExclusiveLock) :
    filelocks_del (filelocks_set l f fl) f = filelocks_del l f := by
  induction l with
  | nil => simp [filelocks_set, filelocks_del]
  | cons p t ih =>
    by_cases hpf : p.1 = f
    · simp [filelocks_set, if_pos hpf, filelocks_del, hpf]
    · simp [filelocks_set, if_neg hpf, filelocks_del, hpf, ih]

theorem filelocks_del_absent {l : List (String × SharedExclusiveLock)} {f : String}
    (h : filelocks_get l f = none) : filelocks_del l f = l := by
  induction l with
  | nil => rfl
  | cons p t ih =>
    by_cases hpf : p.1 = f
    · simp [filelocks_get, hpf] at h
    · simp only [filelocks_get, if_neg hpf] at h
      simp [filelocks_del, hpf, ih h]

theorem filelocks_get_del_self (l : List (String × SharedExclusiveLock)) (f : String) :
    filelocks_get (filelocks_del l f) f = none := by
  induction l with
  | nil => rfl
  | cons p t ih =>
    by_cases hpf : p.1 = f
    · simpa [filelocks_del, hpf] using ih
    · simp [filelocks_del, filelocks_get, hpf, ih]

theorem filelocks_set_get_self {l : List (String × SharedExclusiveLock)} {f : String}
    {fl : SharedExclusiveLock} (h : filelocks_get l f = some fl) :
    filelocks_set l f fl = l := by
  induction l with
  | nil => cases h
  | cons p t ih =>
    by_cases hpf : p.1 = f
    · simp only [filelocks_get, if_pos hpf, Option.some.injEq] at h
      simp only [filelocks_set, if_pos hpf]
      rw [← h, ← hpf]
    · simp only [filelocks_get, if_neg hpf] at h
      simp [filelocks_set, hpf, ih h]

theorem run_lockfunc_ok {E : Type} {lockfunc : Int → Except E Unit} :
    ∀ {ls tr : List Int} {u : Unit},
      run_lockfunc lockfunc ls = (tr, Except.ok u) → tr = ls := by
  intro ls
  induction ls with
  | nil =>
    intro tr u h
    simpa [run_lockfunc] using congrArg Prod.fst h
  | cons l t ih =>
    intro tr u h
    cases hfl : lockfunc l with
    | ok v =>
      simp only [run_lockfunc, hfl] at h
      rw [Prod.mk.injEq] at h
      obtain ⟨h1, h2⟩ := h
      have ht : (run_lockfunc lockfunc t).1 = t := ih (u := u) (by rw [← h2])
      rw [← h1, ht]
    | error e =>
      simp [run_lockfunc, hfl] at h

/-- A failing run of the native-lock loop: the successfully locked prefix,
the failing level, and the levels that were skipped. -/
theorem run_lockfunc_error {E : Type} {lockfunc : Int → Except E Unit} :
    ∀ {ls tr : List Int} {e : E},
      run_lockfunc lockfunc ls = (tr, Except.error e) →
      ∃ pre x post, ls = pre ++ x :: post ∧ tr = pre ++ [x] ∧
        (∀ y ∈ pre, lockfunc y = Except.ok ()) ∧ lockfunc x = Except.error e := by
  intro ls
  induction ls with
  | nil => intro tr e h; simp [run_lockfunc] at h
  | cons l t ih =>
    intro tr e h
    cases hfl : lockfunc l with
    | ok v =>
      simp only [run_lockfunc, hfl] at h
      rw [Prod.mk.injEq] at h
      obtain ⟨h1, h2⟩ := h
      obtain ⟨pre, x, post, he1, he2, he3, he4⟩ := ih (e := e) (by rw [← h2])
      refine ⟨l :: pre, x, post, by rw [he1]; rfl, by rw [← h1, he2]; rfl, ?_, he4⟩
      intro y hy
      rcases List.mem_cons.mp hy with hy | hy
      · subst hy; cases v; exact hfl
      · exact he3 y hy
    | error e' =>
      simp only [run_lockfunc, hfl, Prod.mk.injEq, Except.error.injEq] at h
      exact ⟨[], l, t, rfl, by simp [← h.1], by simp, by rw [hfl, h.2]⟩

theorem mem_ascend_level {x old_level new_level : Int} :
    x ∈ ascend_level old_level new_level ↔
      (x = LOCK_SHARED ∨ x = LOCK_RESERVED ∨ x = LOCK_EXCLUSIVE) ∧
        old_level < x ∧ x ≤ new_level := by
  simp only [ascend_level, ascend_level_from, LOCK_SHARED, LOCK_RESERVED, LOCK_EXCLUSIVE]
  split_ifs <;> simp_all <;> omega

theorem ascend_level_sorted (old_level new_level : Int) :
    List.Sorted (· < ·) (ascend_level old_level new_level) := by
  simp only [ascend_level, ascend_level_from, LOCK_SHARED, LOCK_RESERVED, LOCK_EXCLUSIVE]
  split_ifs <;> simp [List.sorted_cons] <;> omega

theorem ascend_level_ne_nil {old_level new_level : Int}
    (h : ascend_level old_level new_level ≠ []) : old_level < new_level := by
  obtain ⟨x, hx⟩ := List.exists_mem_of_ne_nil _ h
  have := mem_ascend_level.mp hx
  omega

/-- A synchronously granted `lock` call returned the previously held level;
a genuine upgrade went through a fast path, which installs exactly the
requested level and leaves the waiter queue alone, and a request for a level
already held returns the state unchanged. -/
theorem lock_granted {s : SharedExclusiveLock} {level : Int} {client : Nat}
    {old_level : Int} {fl' : SharedExclusiveLock}
    (h : s.lock level client = .granted old_level fl') :
    old_level = holders_get s.lock_holders client ∧
      (holders_get s.lock_holders client < level →
        (level = LOCK_SHARED ∨ level = LOCK_RESERVED ∨ level = LOCK_EXCLUSIVE) ∧
          fl'.lock_holders = holders_set s.lock_holders client level ∧
          fl'.blocked_clients = s.blocked_clients) ∧
      (¬ holders_get s.lock_holders client < level → fl' = s) := by
  simp only [SharedExclusiveLock.lock, SharedExclusiveLock.acquire_shared,
    SharedExclusiveLock.acquire_reserved, SharedExclusiveLock.acquire_exclusive,
    SharedExclusiveLock.enqueue_waiter] at h
  split_ifs at h
  all_goals first
    | (simp only [LockOutcome.granted.injEq] at h
       obtain ⟨h1, h2⟩ := h
       subst h1
       refine ⟨rfl, fun _ => ⟨by simp_all, ?_, ?_⟩, fun hn => absurd (by assumption) hn⟩ <;>
         simp_all [← h2])
    | (simp only [LockOutcome.granted.injEq] at h
       obtain ⟨h1, h2⟩ := h
       subst h1
       exact ⟨rfl, fun hl => absurd hl (by assumption), fun _ => h2.symm⟩)
    | simp at h

/-! ### The claims -/

/-- C1: after the call sequence `lock(RESERVED, 10)`; `lock(EXCLUSIVE, 11)`
(blocks); `lock(SHARED, 12)` (blocks); timeout of client 11, the reached
state has the `SHARED` waiter of client 12 at the head of the queue while
the maximum holder level is `RESERVED < PENDING`: invariant 3 of
`check_invariant` is violated between external calls, so the claim that
invariants 1-6 hold after any sequence of calls fails on the code (the next
`lock` call on this file runs `check_invariant` and dies on its third
`assert`). -/
theorem c1_invariant_violation :
    runEvents SharedExclusiveLock.init
        [.lockCall LOCK_RESERVED 10, .lockCall LOCK_EXCLUSIVE 11,
         .lockCall LOCK_SHARED 12, .timeoutOf 11]
      = some ⟨[(10, LOCK_RESERVED)], [⟨12, LOCK_SHARED⟩]⟩ ∧
    SharedExclusiveLock.check_invariant ⟨[(10, LOCK_RESERVED)], [⟨12, LOCK_SHARED⟩]⟩
      = false :=
  ⟨rfl, rfl⟩

/-- C6: the timeout branch of `_wait` splices the timed-out waiter out of
the queue but does not re-run the scheduler, contradicting the spec.  After
`lock(RESERVED, 20)`; `lock(EXCLUSIVE, 21)` (blocks); `lock(SHARED, 22)`
(blocks), the timeout of client 21 leaves client 22 queued and holding
nothing, although running `_wakeup_blocked` at that point would grant it
`SHARED` immediately. -/
theorem c6_timeout_skips_scheduler :
    runEvents SharedExclusiveLock.init
        [.lockCall LOCK_RESERVED 20, .lockCall LOCK_EXCLUSIVE 21, .lockCall LOCK_SHARED 22]
      = some ⟨[(20, LOCK_RESERVED)], [⟨21, LOCK_EXCLUSIVE⟩, ⟨22, LOCK_SHARED⟩]⟩ ∧
    SharedExclusiveLock.timeout_splice
        ⟨[(20, LOCK_RESERVED)], [⟨21, LOCK_EXCLUSIVE⟩, ⟨22, LOCK_SHARED⟩]⟩ 21
      = ⟨[(20, LOCK_RESERVED)], [⟨22, LOCK_SHARED⟩]⟩ ∧
    wakeup_blocked [(20, LOCK_RESERVED)] [⟨22, LOCK_SHARED⟩]
      = some ([(20, LOCK_RESERVED), (22, LOCK_SHARED)], []) :=
  ⟨rfl, rfl, rfl⟩

/-- C2: in any state where client `c` holds `SHARED` and a different client
`o` holds `RESERVED` or higher, both `lock(RESERVED, c)` and
`lock(EXCLUSIVE, c)` raise `DeadlockError` synchronously, without touching
the holders map or the waiter queue. -/
theorem c2_promotion_deadlock (s : SharedExclusiveLock) (c o : Nat) (hne : o ≠ c)
    (hc : holders_get s.lock_holders c = LOCK_SHARED)
    (ho : LOCK_RESERVED ≤ holders_get s.lock_holders o) :
    s.lock LOCK_RESERVED c = .deadlock s ∧ s.lock LOCK_EXCLUSIVE c = .deadlock s := by
  have hpos : holders_get s.lock_holders o ≠ LOCK_NONE := by
    simp only [LOCK_NONE]
    simp only [LOCK_RESERVED] at ho
    omega
  have hmax : (2 : Int) ≤ max_of_levels (other_levels s.lock_holders c) := by
    have := mem_le_max_of_levels (mem_other_levels hne hpos)
    simp only [LOCK_RESERVED] at ho
    omega
  constructor
  · have hfast : ¬ (max_of_levels (other_levels s.lock_holders c) < (2 : Int)
        ∧ s.blocked_clients = []) := by
      rintro ⟨hlt, -⟩
      omega
    simp [SharedExclusiveLock.lock, hc, SharedExclusiveLock.acquire_reserved, hfast]
  · have h0 : ¬ max_of_levels (other_levels s.lock_holders c) = (0 : Int) := by omega
    have h1 : ¬ max_of_levels (other_levels s.lock_holders c) = (1 : Int) := by omega
    simp [SharedExclusiveLock.lock, hc, SharedExclusiveLock.acquire_exclusive, h0, h1]

/-- C2 witness: holders `{0: SHARED, 1: RESERVED}`; both promotions of
client 0 are refused with state unchanged. -/
theorem c2_promotion_deadlock_witness :
    ((1 : Nat) ≠ 0 ∧ holders_get [(0, 1), (1, 2)] 0 = LOCK_SHARED ∧
      LOCK_RESERVED ≤ holders_get [(0, 1), (1, 2)] 1) ∧
    SharedExclusiveLock.lock ⟨[(0, 1), (1, 2)], []⟩ LOCK_RESERVED 0
      = .deadlock ⟨[(0, 1), (1, 2)], []⟩ ∧
    SharedExclusiveLock.lock ⟨[(0, 1), (1, 2)], []⟩ LOCK_EXCLUSIVE 0
      = .deadlock ⟨[(0, 1), (1, 2)], []⟩ :=
  ⟨⟨by decide, by decide, by decide⟩,
    c2_promotion_deadlock ⟨[(0, 1), (1, 2)], []⟩ 0 1 (by decide) (by decide) (by decide)⟩

/-- C8: whenever the client already holds a level at least as high as the
requested one, `lock` returns the currently held level at once and changes
no state; in particular a repeated `lock(L, c)` is a no-op returning `L`. -/
theorem c8_lock_noop (s : SharedExclusiveLock) (level : Int) (client : Nat)
    (h : level ≤ holders_get s.lock_holders client) :
    s.lock level client = .granted (holders_get s.lock_holders client) s := by
  simp only [SharedExclusiveLock.lock]
  rw [if_neg (by omega)]

/-- C8 witness: client 3 holds `RESERVED`; a second `lock(RESERVED, 3)`
returns `RESERVED` and leaves the state alone. -/
theorem c8_lock_noop_witness :
    LOCK_RESERVED ≤ holders_get [(3, 2)] 3 ∧
    SharedExclusiveLock.lock ⟨[(3, 2)], []⟩ LOCK_RESERVED 3
      = .granted (holders_get [(3, 2)] 3) ⟨[(3, 2)], []⟩ :=
  ⟨by decide, c8_lock_noop ⟨[(3, 2)], []⟩ LOCK_RESERVED 3 (by decide)⟩

/-- C9 counterexample: `lock(NONE, 7)` on an idle file is a level outside
`{SHARED, RESERVED, EXCLUSIVE}`, yet the call returns normally (the
`ValueError` branch is reachable only for levels above the held one because
the dispatch sits under `if level > old_level`). -/
theorem c9_lock_none_returns :
    (LOCK_NONE ≠ LOCK_SHARED ∧ LOCK_NONE ≠ LOCK_RESERVED ∧ LOCK_NONE ≠ LOCK_EXCLUSIVE) ∧
    SharedExclusiveLock.lock ⟨[], []⟩ LOCK_NONE 7 = .granted LOCK_NONE ⟨[], []⟩ :=
  ⟨by decide, rfl⟩

/-- C9 amended: a level outside `{SHARED, RESERVED, EXCLUSIVE}` raises the
`ValueError` exactly when it is strictly above the client's held level;
otherwise the call is the usual no-op returning the held level. -/
theorem c9_invalid_level_amended (s : SharedExclusiveLock) (level : Int) (client : Nat)
    (hbad : level ≠ LOCK_SHARED ∧ level ≠ LOCK_RESERVED ∧ level ≠ LOCK_EXCLUSIVE) :
    (holders_get s.lock_holders client < level → s.lock level client = .invalid_level s) ∧
    (level ≤ holders_get s.lock_holders client →
      s.lock level client = .granted (holders_get s.lock_holders client) s) := by
  obtain ⟨hb1, hb2, hb3⟩ := hbad
  constructor
  · intro hlt
    simp only [SharedExclusiveLock.lock]
    rw [if_pos hlt, if_neg hb1, if_neg hb2, if_neg hb3]
  · intro hle
    simp only [SharedExclusiveLock.lock]
    rw [if_neg (by omega)]

/-- C9 amended witness: `lock(PENDING, 2)` with client 2 at `SHARED` raises
the `ValueError`. -/
theorem c9_invalid_level_amended_witness :
    (LOCK_PENDING ≠ LOCK_SHARED ∧ LOCK_PENDING ≠ LOCK_RESERVED ∧
      LOCK_PENDING ≠ LOCK_EXCLUSIVE) ∧
    holders_get [(2, 1)] 2 < LOCK_PENDING ∧
    SharedExclusiveLock.lock ⟨[(2, 1)], []⟩ LOCK_PENDING 2 = .invalid_level ⟨[(2, 1)], []⟩ :=
  ⟨by decide, by decide,
    (c9_invalid_level_amended ⟨[(2, 1)], []⟩ LOCK_PENDING 2 (by decide)).1 (by decide)⟩

/-- C5 counterexample: after `lock(SHARED, 30)`; `lock(EXCLUSIVE, 31)`
(client 31 is marked `PENDING` and queued); `lock(RESERVED, 32)` (queued);
timeout of client 31, client 31 still holds `PENDING` (not `RESERVED`) and
its renewed `lock(EXCLUSIVE, 31)` is inserted at the head of the queue,
ahead of the waiting client 32 - a head insertion from a state other than
"already holding RESERVED", refuting the claimed uniqueness of the
exception. -/
theorem c5_front_insert_not_from_reserved :
    runEvents SharedExclusiveLock.init
        [.lockCall LOCK_SHARED 30, .lockCall LOCK_EXCLUSIVE 31,
         .lockCall LOCK_RESERVED 32, .timeoutOf 31]
      = some ⟨[(30, LOCK_SHARED), (31, LOCK_PENDING)], [⟨32, LOCK_RESERVED⟩]⟩ ∧
    holders_get [(30, LOCK_SHARED), (31, LOCK_PENDING)] 31 = LOCK_PENDING ∧
    LOCK_PENDING ≠ LOCK_RESERVED ∧
    SharedExclusiveLock.lock
        ⟨[(30, LOCK_SHARED), (31, LOCK_PENDING)], [⟨32, LOCK_RESERVED⟩]⟩
        LOCK_EXCLUSIVE 31
      = .blocked LOCK_PENDING
          ⟨[(30, LOCK_SHARED), (31, LOCK_PENDING)],
            [⟨31, LOCK_EXCLUSIVE⟩, ⟨32, LOCK_RESERVED⟩]⟩ ∧
    ([⟨31, LOCK_EXCLUSIVE⟩, ⟨32, LOCK_RESERVED⟩] : List BlockedClientInfo)
      ≠ [⟨32, LOCK_RESERVED⟩] ++ [⟨31, LOCK_EXCLUSIVE⟩] :=
  ⟨rfl, rfl, by decide, rfl, by decide⟩

/-- C5 amended: a `lock` call that enqueues a waiter inserts it at the head
exactly when it requests `EXCLUSIVE` and the maximum level among the other
holders is `SHARED` (the client is marked `PENDING` in the same step); this
covers the `RESERVED` holder promoting to `EXCLUSIVE`, but equally clients
holding `NONE`, `SHARED` or `PENDING` in that situation.  Every other
enqueue appends to the tail. -/
theorem c5_queue_discipline (s : SharedExclusiveLock) (level : Int) (client : Nat)
    (old_level : Int) (s' : SharedExclusiveLock)
    (h : s.lock level client = .blocked old_level s') :
    (level = LOCK_EXCLUSIVE ∧
        max_of_levels (other_levels s.lock_holders client) = LOCK_SHARED →
      s'.blocked_clients = ⟨client, level⟩ :: s.blocked_clients) ∧
    (¬ (level = LOCK_EXCLUSIVE ∧
        max_of_levels (other_levels s.lock_holders client) = LOCK_SHARED) →
      s'.blocked_clients = s.blocked_clients ++ [⟨client, level⟩]) := by
  simp only [SharedExclusiveLock.lock, SharedExclusiveLock.acquire_shared,
    SharedExclusiveLock.acquire_reserved, SharedExclusiveLock.acquire_exclusive,
    SharedExclusiveLock.enqueue_waiter] at h
  split_ifs at h
  all_goals first
    | (simp only [LockOutcome.blocked.injEq] at h
       obtain ⟨h1, h2⟩ := h
       refine ⟨fun hfront => ?_, fun htail => ?_⟩ <;> simp_all [← h2])
    | simp at h

/-- C5 amended witness: the two enqueue shapes at concrete states - a head
insertion for an `EXCLUSIVE` request over a `SHARED` holder, and a tail
append for a `SHARED` request blocked behind an `EXCLUSIVE` holder. -/
theorem c5_queue_discipline_witness :
    (⟨[(30, LOCK_SHARED), (31, LOCK_PENDING)],
        [⟨31, LOCK_EXCLUSIVE⟩, ⟨32, LOCK_RESERVED⟩]⟩ :
          SharedExclusiveLock).blocked_clients
      = ⟨31, LOCK_EXCLUSIVE⟩ ::
          (⟨[(30, LOCK_SHARED), (31, LOCK_PENDING)], [⟨32, LOCK_RESERVED⟩]⟩ :
            SharedExclusiveLock).blocked_clients ∧
    (⟨[(40, LOCK_EXCLUSIVE)], [⟨41, LOCK_SHARED⟩]⟩ :
          SharedExclusiveLock).blocked_clients
      = (⟨[(40, LOCK_EXCLUSIVE)], []⟩ : SharedExclusiveLock).blocked_clients
          ++ [⟨41, LOCK_SHARED⟩] :=
  ⟨(c5_queue_discipline
      ⟨[(30, LOCK_SHARED), (31, LOCK_PENDING)], [⟨32, LOCK_RESERVED⟩]⟩
      LOCK_EXCLUSIVE 31 LOCK_PENDING
      ⟨[(30, LOCK_SHARED), (31, LOCK_PENDING)],
        [⟨31, LOCK_EXCLUSIVE⟩, ⟨32, LOCK_RESERVED⟩]⟩ rfl).1 (by decide),
   (c5_queue_discipline ⟨[(40, LOCK_EXCLUSIVE)], []⟩ LOCK_SHARED 41 LOCK_NONE
      ⟨[(40, LOCK_EXCLUSIVE)], [⟨41, LOCK_SHARED⟩]⟩ rfl).2 (by decide)⟩

/-- C7: `unlock(level, client)` is a no-op whenever `level` is at least the
held level; on a genuine downgrade the client's entry is removed for
`level = NONE` and set to `level` otherwise, and the scheduler
`_wakeup_blocked` is run on the result (which may grant queued waiters).
The downgrade case is stated for queues produced by `_wait` (waiter levels
in `{SHARED, RESERVED, EXCLUSIVE}`) and for a client that is not itself
queued, which holds for every state a real call sequence can produce. -/
theorem c7_unlock_downgrade (s : SharedExclusiveLock) (level : Int) (client : Nat) :
    (holders_get s.lock_holders client ≤ level → s.unlock level client = some s) ∧
    (level < holders_get s.lock_holders client →
      (∀ w ∈ s.blocked_clients,
          w.level = LOCK_SHARED ∨ w.level = LOCK_RESERVED ∨ w.level = LOCK_EXCLUSIVE) →
      (∀ w ∈ s.blocked_clients, w.client ≠ client) →
      ∃ s', s.unlock level client = some s' ∧
        holders_get s'.lock_holders client = level ∧
        (level = LOCK_NONE → ∀ p ∈ s'.lock_holders, p.1 ≠ client) ∧
        wakeup_blocked
            (if level = LOCK_NONE then holders_del s.lock_holders client
             else holders_set s.lock_holders client level)
            s.blocked_clients = some (s'.lock_holders, s'.blocked_clients)) := by
  constructor
  · intro hle
    simp only [SharedExclusiveLock.unlock]
    rw [if_neg (by omega)]
  · intro hlt hv hnb
    obtain ⟨⟨h', b'⟩, heq⟩ := Option.isSome_iff_exists.mp
      (wakeup_blocked_isSome s.blocked_clients
        (if level = LOCK_NONE then holders_del s.lock_holders client
         else holders_set s.lock_holders client level) hv)
    obtain ⟨hg, hmem⟩ := wakeup_blocked_frame s.blocked_clients _ h' b' hnb heq
    refine ⟨⟨h', b'⟩, ?_, ?_, ?_, heq⟩
    · simp only [SharedExclusiveLock.unlock]
      rw [if_pos hlt, heq]
    · by_cases h0 : level = LOCK_NONE
      · rw [hg, if_pos h0, h0,
          holders_get_absent (holders_del_mem s.lock_holders client)]
      · rw [hg, if_neg h0, holders_get_set_self]
    · intro h0
      exact hmem (by rw [if_pos h0]; exact holders_del_mem s.lock_holders client)

/-- C7 witness: client 0 downgrades from `EXCLUSIVE` to `NONE`; its entry
disappears and the scheduler grants the queued `SHARED` waiter of client 1.
The no-op half is witnessed by `unlock(EXCLUSIVE, 0)` on the same state. -/
theorem c7_unlock_downgrade_witness :
    SharedExclusiveLock.unlock ⟨[(0, LOCK_EXCLUSIVE)], [⟨1, LOCK_SHARED⟩]⟩
        LOCK_EXCLUSIVE 0
      = some ⟨[(0, LOCK_EXCLUSIVE)], [⟨1, LOCK_SHARED⟩]⟩ ∧
    ∃ s', SharedExclusiveLock.unlock ⟨[(0, LOCK_EXCLUSIVE)], [⟨1, LOCK_SHARED⟩]⟩
        LOCK_NONE 0 = some s' ∧
      holders_get s'.lock_holders 0 = LOCK_NONE ∧
      (LOCK_NONE = LOCK_NONE → ∀ p ∈ s'.lock_holders, p.1 ≠ 0) ∧
      wakeup_blocked
          (if LOCK_NONE = LOCK_NONE then holders_del [(0, LOCK_EXCLUSIVE)] 0
           else holders_set [(0, LOCK_EXCLUSIVE)] 0 LOCK_NONE)
          [⟨1, LOCK_SHARED⟩] = some (s'.lock_holders, s'.blocked_clients) :=
  ⟨(c7_unlock_downgrade ⟨[(0, LOCK_EXCLUSIVE)], [⟨1, LOCK_SHARED⟩]⟩ LOCK_EXCLUSIVE 0).1
      (by decide),
   (c7_unlock_downgrade ⟨[(0, LOCK_EXCLUSIVE)], [⟨1, LOCK_SHARED⟩]⟩ LOCK_NONE 0).2
      (by decide) (by decide) (by decide)⟩

/-- C10: `DefaultLockManager.unlock` for a client that holds nothing - the
filename is not registered, or its filelock does not list the client among
its holders (registered filelocks always have holders between external
calls) - returns normally with the manager map unchanged: the lazily
created filelock is dropped again by the idle check, so an idle manager
stays idle and no fresh filelock is left behind. -/
theorem c10_unlock_without_lock (m : DefaultLockManager) (filename : String)
    (level : Int) (client : Nat) (hlev : 0 ≤ level)
    (h : filelocks_get m.filelocks filename = none ∨
      ∃ fl, filelocks_get m.filelocks filename = some fl ∧ fl.lock_holders ≠ [] ∧
        ∀ p ∈ fl.lock_holders, p.1 ≠ client) :
    m.unlock filename level client = some m := by
  rcases h with h | ⟨fl, hget, hne, habs⟩
  · have h1 : m.get_filelock filename = SharedExclusiveLock.init := by
      simp [DefaultLockManager.get_filelock, h]
    have h2 : SharedExclusiveLock.unlock SharedExclusiveLock.init level client
        = some SharedExclusiveLock.init := by
      simp only [SharedExclusiveLock.unlock, SharedExclusiveLock.init]
      rw [if_neg (by simp only [holders_get, LOCK_NONE]; omega)]
    have h4 : drop_if_idle m filename SharedExclusiveLock.init = m := by
      unfold drop_if_idle
      rw [if_pos (by rfl)]
      unfold drop_filelock
      rw [filelocks_del_absent h]
    simp only [DefaultLockManager.unlock, h1, h2, h4]
  · have h1 : m.get_filelock filename = fl := by
      simp [DefaultLockManager.get_filelock, hget]
    have hold : holders_get fl.lock_holders client = LOCK_NONE :=
      holders_get_absent habs
    have h2 : fl.unlock level client = some fl := by
      simp only [SharedExclusiveLock.unlock]
      rw [if_neg (by rw [hold]; simp only [LOCK_NONE]; omega)]
    have h3 : fl.is_idle = false := by
      simp [SharedExclusiveLock.is_idle, List.isEmpty_iff, hne]
    have h4 : drop_if_idle m filename fl = m := by
      unfold drop_if_idle
      rw [if_neg (by rw [h3]; simp)]
      unfold set_filelock
      rw [filelocks_set_get_self hget]
    simp only [DefaultLockManager.unlock, h1, h2, h4]

/-- C10 witness: a manager holding one file whose only holder is client 1;
`unlock` for the unrelated client 0 (and, for an unregistered filename, on
the empty manager) changes nothing. -/
theorem c10_unlock_without_lock_witness :
    DefaultLockManager.unlock ⟨[("db", ⟨[(1, LOCK_RESERVED)], []⟩)]⟩ "db" LOCK_NONE 0
      = some ⟨[("db", ⟨[(1, LOCK_RESERVED)], []⟩)]⟩ ∧
    DefaultLockManager.unlock ⟨[]⟩ "other" LOCK_NONE 0 = some ⟨[]⟩ :=
  ⟨c10_unlock_without_lock ⟨[("db", ⟨[(1, LOCK_RESERVED)], []⟩)]⟩ "db" LOCK_NONE 0
      (by decide)
      (Or.inr ⟨⟨[(1, LOCK_RESERVED)], []⟩, rfl, by decide, by decide⟩),
   c10_unlock_without_lock ⟨[]⟩ "other" LOCK_NONE 0 (by decide) (Or.inl rfl)⟩

/-- C4: a `DefaultLockManager.lock` call whose arbitration returned
`old_level` and whose native callback succeeds returns normally, having
invoked the callback exactly once for every level of `{SHARED, RESERVED,
EXCLUSIVE}` strictly above `old_level` and at most the requested level, in
strictly ascending order; `PENDING` is never passed to the callback. -/
theorem c4_callback_levels {E : Type} (m : DefaultLockManager)
    (lockfunc : Int → Except E Unit) (filename : String) (level : Int)
    (client : Nat) (old_level : Int) (fl' : SharedExclusiveLock) (tr : List Int)
    (hlock : (m.get_filelock filename).lock level client = .granted old_level fl')
    (hok : run_lockfunc lockfunc (ascend_level old_level level) = (tr, Except.ok ())) :
    m.lock lockfunc filename level client = some (.ok (drop_if_idle m filename fl')) ∧
    tr = ascend_level old_level level ∧
    (∀ x, x ∈ tr ↔
      (x = LOCK_SHARED ∨ x = LOCK_RESERVED ∨ x = LOCK_EXCLUSIVE) ∧
        old_level < x ∧ x ≤ level) ∧
    List.Sorted (· < ·) tr ∧ LOCK_PENDING ∉ tr := by
  have htr : tr = ascend_level old_level level := run_lockfunc_ok hok
  refine ⟨?_, htr, ?_, ?_, ?_⟩
  · simp only [DefaultLockManager.lock, hlock, hok]
  · intro x
    rw [htr, mem_ascend_level]
  · rw [htr]; exact ascend_level_sorted old_level level
  · rw [htr]
    intro hmem
    have := mem_ascend_level.mp hmem
    simp only [LOCK_PENDING, LOCK_SHARED, LOCK_RESERVED, LOCK_EXCLUSIVE] at this
    omega

/-- C4 witness: from `NONE` to `EXCLUSIVE` on an idle file the callback
sees exactly `[SHARED, RESERVED, EXCLUSIVE]`, in order, and the call
returns normally. -/
theorem c4_callback_levels_witness :
    DefaultLockManager.lock (E := Unit) ⟨[]⟩ (fun _ => Except.ok ()) "db"
        LOCK_EXCLUSIVE 5
      = some (.ok (drop_if_idle ⟨[]⟩ "db" ⟨[(5, LOCK_EXCLUSIVE)], []⟩)) ∧
    [LOCK_SHARED, LOCK_RESERVED, LOCK_EXCLUSIVE] = ascend_level LOCK_NONE LOCK_EXCLUSIVE ∧
    (∀ x, x ∈ [LOCK_SHARED, LOCK_RESERVED, LOCK_EXCLUSIVE] ↔
      (x = LOCK_SHARED ∨ x = LOCK_RESERVED ∨ x = LOCK_EXCLUSIVE) ∧
        LOCK_NONE < x ∧ x ≤ LOCK_EXCLUSIVE) ∧
    List.Sorted (· < ·) [LOCK_SHARED, LOCK_RESERVED, LOCK_EXCLUSIVE] ∧
    LOCK_PENDING ∉ [LOCK_SHARED, LOCK_RESERVED, LOCK_EXCLUSIVE] :=
  c4_callback_levels ⟨[]⟩ (fun _ => Except.ok ()) "db" LOCK_EXCLUSIVE 5 LOCK_NONE
    ⟨[(5, LOCK_EXCLUSIVE)], []⟩ [LOCK_SHARED, LOCK_RESERVED, LOCK_EXCLUSIVE] rfl rfl

/-- C3: when the native callback raises during a `DefaultLockManager.lock`
call whose arbitration had granted the upgrade, the remaining callback
invocations are skipped, the in-memory state is rolled back so that the
client again holds exactly `old_level`, the callback's exception reaches
the caller unchanged, and when the client previously held `NONE` on an
otherwise empty filelock the filelock is dropped again (an idle manager
ends up idle).  As in C7, the hypotheses on the queue (waiter levels in
`{SHARED, RESERVED, EXCLUSIVE}`, calling client not queued) hold in every
state a real call sequence can produce. -/
theorem c3_callback_failure_rollback {E : Type} (m : DefaultLockManager)
    (lockfunc : Int → Except E Unit) (filename : String) (level : Int)
    (client : Nat) (old_level : Int) (fl' : SharedExclusiveLock) (tr : List Int)
    (e : E)
    (hlock : (m.get_filelock filename).lock level client = .granted old_level fl')
    (hfail : run_lockfunc lockfunc (ascend_level old_level level)
      = (tr, Except.error e))
    (hvw : ∀ w ∈ (m.get_filelock filename).blocked_clients,
        w.level = LOCK_SHARED ∨ w.level = LOCK_RESERVED ∨ w.level = LOCK_EXCLUSIVE)
    (hnb : ∀ w ∈ (m.get_filelock filename).blocked_clients, w.client ≠ client) :
    ∃ m2, m.lock lockfunc filename level client = some (.lockfuncError m2 e) ∧
      holders_get (m2.get_filelock filename).lock_holders client = old_level ∧
      (∃ pre x post, ascend_level old_level level = pre ++ x :: post ∧
        tr = pre ++ [x] ∧ (∀ y ∈ pre, lockfunc y = Except.ok ()) ∧
        lockfunc x = Except.error e) ∧
      ((m.get_filelock filename).lock_holders = [] →
        (m.get_filelock filename).blocked_clients = [] → old_level = LOCK_NONE →
        m2 = drop_filelock m filename) := by
  have hane : ascend_level old_level level ≠ [] := by
    intro hnil
    rw [hnil] at hfail
    simp [run_lockfunc] at hfail
  have holt : old_level < level := ascend_level_ne_nil hane
  obtain ⟨hold, hup, -⟩ := lock_granted hlock
  have hlt' : holders_get (m.get_filelock filename).lock_holders client < level := by
    rw [← hold]; exact holt
  obtain ⟨-, hset, hblk⟩ := hup hlt'
  have hfl'get : holders_get fl'.lock_holders client = level := by
    rw [hset]; exact holders_get_set_self _ _ _
  have hfl'idle : fl'.is_idle = false := by
    simp [SharedExclusiveLock.is_idle, hset, List.isEmpty_iff, holders_set_ne_nil]
  have hm1 : drop_if_idle m filename fl' = set_filelock m filename fl' := by
    unfold drop_if_idle
    rw [if_neg (by rw [hfl'idle]; simp)]
  have hm1get : (set_filelock m filename fl').get_filelock filename = fl' := by
    simp [DefaultLockManager.get_filelock, set_filelock, filelocks_get_set_self]
  have hvw' : ∀ w ∈ fl'.blocked_clients,
      w.level = LOCK_SHARED ∨ w.level = LOCK_RESERVED ∨ w.level = LOCK_EXCLUSIVE := by
    rw [hblk]; exact hvw
  have hnb' : ∀ w ∈ fl'.blocked_clients, w.client ≠ client := by
    rw [hblk]; exact hnb
  obtain ⟨⟨h2, b2⟩, hwb⟩ := Option.isSome_iff_exists.mp
    (wakeup_blocked_isSome fl'.blocked_clients
      (if old_level = LOCK_NONE then holders_del fl'.lock_holders client
       else holders_set fl'.lock_holders client old_level) hvw')
  obtain ⟨hg2, hmem2⟩ := wakeup_blocked_frame fl'.blocked_clients _ h2 b2 hnb' hwb
  have hunlock : fl'.unlock old_level client = some ⟨h2, b2⟩ := by
    simp only [SharedExclusiveLock.unlock]
    rw [if_pos (by rw [hfl'get]; exact holt), hwb]
  have hg2c : holders_get h2 client = old_level := by
    by_cases h0 : old_level = LOCK_NONE
    · rw [hg2, if_pos h0, holders_get_absent (holders_del_mem fl'.lock_holders client), h0]
    · rw [hg2, if_neg h0, holders_get_set_self]
  have hmu : (set_filelock m filename fl').unlock filename old_level client
      = some (drop_if_idle (set_filelock m filename fl') filename ⟨h2, b2⟩) := by
    simp only [DefaultLockManager.unlock, hm1get, hunlock]
  refine ⟨drop_if_idle (set_filelock m filename fl') filename ⟨h2, b2⟩, ?_, ?_,
    run_lockfunc_error hfail, ?_⟩
  · simp only [DefaultLockManager.lock, hlock, hfail, hm1, hmu]
  · by_cases hidle : (⟨h2, b2⟩ : SharedExclusiveLock).is_idle = true
    · have h2nil : h2 = [] := by
        simpa [SharedExclusiveLock.is_idle, List.isEmpty_iff] using hidle
      have hol0 : old_level = LOCK_NONE := by
        rw [← hg2c, h2nil]; rfl
      have hd : drop_if_idle (set_filelock m filename fl') filename ⟨h2, b2⟩
          = drop_filelock (set_filelock m filename fl') filename := by
        unfold drop_if_idle
        rw [if_pos hidle]
      have hdg : (drop_filelock (set_filelock m filename fl') filename).get_filelock
          filename = SharedExclusiveLock.init := by
        simp [DefaultLockManager.get_filelock, drop_filelock, filelocks_get_del_self]
      rw [hd, hdg, hol0]
      rfl
    · have hd : drop_if_idle (set_filelock m filename fl') filename ⟨h2, b2⟩
          = set_filelock (set_filelock m filename fl') filename ⟨h2, b2⟩ := by
        unfold drop_if_idle
        rw [if_neg hidle]
      have hdg : (set_filelock (set_filelock m filename fl') filename
          ⟨h2, b2⟩).get_filelock filename = ⟨h2, b2⟩ := by
        simp [DefaultLockManager.get_filelock, set_filelock, filelocks_get_set_self]
      rw [hd, hdg]
      exact hg2c
  · intro hh hb h0
    have hfl'h : fl'.lock_holders = holders_set [] client level := by rw [hset, hh]
    have hH2 : (if old_level = LOCK_NONE then holders_del fl'.lock_holders client
        else holders_set fl'.lock_holders client old_level) = [] := by
      rw [if_pos h0, hfl'h]
      simp [holders_set, holders_del]
    have hfl'b : fl'.blocked_clients = [] := by rw [hblk, hb]
    have hwb2 : wakeup_blocked
        (if old_level = LOCK_NONE then holders_del fl'.lock_holders client
         else holders_set fl'.lock_holders client old_level) fl'.blocked_clients
        = some ([], []) := by
      rw [hH2, hfl'b]
      rfl
    rw [hwb2] at hwb
    obtain ⟨hh2, hb2⟩ : h2 = [] ∧ b2 = [] := by
      have := Option.some.inj hwb
      exact ⟨(congrArg Prod.fst this).symm, (congrArg Prod.snd this).symm⟩
    subst hh2
    subst hb2
    have hdel : drop_filelock (set_filelock m filename fl') filename
        = drop_filelock m filename := by
      simp [drop_filelock, set_filelock, filelocks_del_set]
    unfold drop_if_idle
    rw [if_pos (by rfl), hdel]

/-- C3 witness: on an idle manager, `lock(SHARED, 0)` for `"db"` with a
callback that always raises `42` propagates the error `42`, rolls the
client back to holding nothing and drops the filelock again. -/
theorem c3_callback_failure_rollback_witness :
    ∃ m2, DefaultLockManager.lock (E := Nat) ⟨[]⟩ (fun _ => Except.error 42) "db"
        LOCK_SHARED 0 = some (.lockfuncError m2 42) ∧
      holders_get (m2.get_filelock "db").lock_holders 0 = LOCK_NONE ∧
      (∃ pre x post, ascend_level LOCK_NONE LOCK_SHARED = pre ++ x :: post ∧
        [LOCK_SHARED] = pre ++ [x] ∧
        (∀ y ∈ pre,
          (fun _ => Except.error 42 : Int → Except Nat Unit) y = Except.ok ()) ∧
        (fun _ => Except.error 42 : Int → Except Nat Unit) x = Except.error 42) ∧
      ((DefaultLockManager.get_filelock ⟨[]⟩ "db").lock_holders = [] →
        (DefaultLockManager.get_filelock ⟨[]⟩ "db").blocked_clients = [] →
        LOCK_NONE = LOCK_NONE → m2 = drop_filelock ⟨[]⟩ "db") :=
  c3_callback_failure_rollback ⟨[]⟩ (fun _ => Except.error 42) "db" LOCK_SHARED 0
    LOCK_NONE ⟨[(0, LOCK_SHARED)], []⟩ [LOCK_SHARED] 42 rfl rfl
    (by intro w hw; exact absurd hw (List.not_mem_nil w))
    (by intro w hw; exact absurd hw (List.not_mem_nil w))
